import Mathlib

/-!
Shallow embedding of `src/Project0/proj.cpp`: an OpenMP micro-benchmark that
repeatedly times a data-parallel elementwise multiply `C[i] = A[i] * B[i]`
over fixed-size global arrays and reports peak and average throughput.

Doubles are modelled by `ℚ`; the wall clock is an external input
(`clock : ℕ → ℚ × ℚ` giving the pair `(time0, time1)` read by trial `t`);
the OpenMP `parallel for` is modelled by a static partition of the index
range `[0, size)` into `numt` contiguous chunks, each chunk's writes
performed in order — the claims proved below include that the result does
not depend on this partition.
-/

/-- `#define SIZE 32742` from the source. -/
def SIZE : ℕ := 32742

/-- `#define NUMTRIES 1000` from the source. -/
def NUMTRIES : ℕ := 1000

/-- `#define NUMT 1` — the default thread count when not overridden. -/
def NUMT : ℕ := 1

/-- The mutable state of the program: the three global `float` arrays
(modelled as total functions, zero outside the written range, matching
zero-initialised globals) and the two aggregate scalars of `main`. -/
structure ProgState where
  A : ℕ → ℚ
  B : ℕ → ℚ
  C : ℕ → ℚ
  maxMegaMults : ℚ
  sum : ℚ

/-- Global arrays are zero-initialised; `maxMegaMults = 0.` and `sum = 0.`
are the initial values set at lines 34–35 of the source. -/
def initState : ProgState :=
  { A := fun _ => 0, B := fun _ => 0, C := fun _ => 0, maxMegaMults := 0, sum := 0 }

/-- The initialization loop (lines 25–29): `for i < size { A[i] = 1.; B[i] = 2.; }`. -/
def initArrays (size : ℕ) (s : ProgState) : ProgState :=
  (List.range size).foldl
    (fun s i =>
      { s with A := Function.update s.A i 1, B := Function.update s.B i 2 }) s

/-- Chunk size of the static OpenMP schedule: `⌈size / numt⌉`. -/
def chunkSize (size numt : ℕ) : ℕ := (size + numt - 1) / numt

/-- The indices assigned to worker thread `t` under the static schedule:
the `t`-th contiguous chunk of `[0, size)`. -/
def threadIndices (size numt t : ℕ) : List ℕ :=
  (List.range' (t * chunkSize size numt) (chunkSize size numt)).filter
    (fun i => i < size)

/-- The order in which the parallel region's writes land: thread 0's chunk,
then thread 1's, and so on.  Any interleaving gives the same array because
the writes are disjoint and independent of `C`. -/
def schedule (size numt : ℕ) : List ℕ :=
  (List.range numt).flatMap (threadIndices size numt)

/-- The body of the parallel loop (lines 41–45): each listed index `i`
receives `A[i] * B[i]`. -/
def ompParallelFor (A B C0 : ℕ → ℚ) (order : List ℕ) : ℕ → ℚ :=
  order.foldl (fun C i => Function.update C i (A i * B i)) C0

/-- Line 48: `megaMults = (double)SIZE / (time1 - time0) / 1000000.`
(`tp = (time0, time1)`). -/
def megaMultsOf (size : ℕ) (tp : ℚ × ℚ) : ℚ :=
  (size : ℚ) / (tp.2 - tp.1) / 1000000

/-- One iteration of the trial loop (lines 37–52): run the parallel
multiply, derive the throughput sample from the two timestamps, fold it
into `sum` and into the running maximum. -/
def trialStep (size numt : ℕ) (tp : ℚ × ℚ) (s : ProgState) : ProgState :=
  let C := ompParallelFor s.A s.B s.C (schedule size numt)
  let megaMults := megaMultsOf size tp
  { s with
    C := C
    sum := s.sum + megaMults
    maxMegaMults := if megaMults > s.maxMegaMults then megaMults else s.maxMegaMults }

/-- The trial loop: `for (int t = 0; t < numtries; t++)`, trial `t` reading
its timestamps from `clock t`. -/
def runTrials (size numt numtries : ℕ) (clock : ℕ → ℚ × ℚ) (s : ProgState) : ProgState :=
  (List.range numtries).foldl (fun s t => trialStep size numt (clock t) s) s

/-- The list of throughput samples produced by the first `n` trials. -/
def samples (size n : ℕ) (clock : ℕ → ℚ × ℚ) : List ℚ :=
  (List.range n).map fun t => megaMultsOf size (clock t)

/-- The ASCII digit for `d < 10`. -/
def digitChar (d : ℕ) : Char := Char.ofNat (48 + d)

/-- `|x|` scaled to hundredths and rounded to the nearest integer, as
`printf` rounding of `%.2lf` is modelled. -/
def centi (x : ℚ) : ℤ := round (|x| * 100)

/-- The two digits printed after the decimal point by `%.2lf`. -/
def fracDigits (x : ℚ) : String :=
  String.mk [digitChar ((centi x / 10) % 10).toNat, digitChar ((centi x) % 10).toNat]

/-- The unpadded decimal rendering of `x` with two digits after the point. -/
def fmtCore (x : ℚ) : String :=
  (if x < 0 then "-" else "") ++ toString (centi x / 100) ++ "." ++ fracDigits x

/-- `printf("%8.2lf", x)`: fixed-point with two decimal digits,
right-justified in a field of (minimum) width `w` padded with spaces. -/
def fmtFixed (w : ℕ) (x : ℚ) : String :=
  String.mk (List.replicate (w - (fmtCore x).length) ' ') ++ fmtCore x

/-- The observable outcome of one process run. -/
structure RunResult where
  exitCode : ℕ
  stdoutLines : List String
  stderrLines : List String
  didInit : Bool
  trialsExecuted : ℕ
  peak : ℚ
  avg : ℚ
  finalC : ℕ → ℚ

/-- The whole of `main`, parameterised (as in the spec's runner contract) by
`size`, `numtries`, `numt` and by whether OpenMP is available
(`#ifndef _OPENMP` at lines 19–22).  If OpenMP is missing the process
prints a diagnostic to stderr and returns 1 before touching the arrays;
otherwise it initializes, runs the trials and prints the two result lines. -/
def mainRun (openmpAvailable : Bool) (size numtries numt : ℕ)
    (clock : ℕ → ℚ × ℚ) : RunResult :=
  if openmpAvailable then
    let s1 := initArrays size initState
    let s2 := runTrials size numt numtries clock s1
    let average := s2.sum / (numtries : ℚ)
    { exitCode := 0
      stdoutLines :=
        ["Peak Performance = " ++ fmtFixed 8 s2.maxMegaMults ++ " MegaMults/Sec",
         "Average Performance = " ++ fmtFixed 8 average ++ " MegaMults/Sec"]
      stderrLines := ["Using " ++ toString numt ++ " threads"]
      didInit := true
      trialsExecuted := numtries
      peak := s2.maxMegaMults
      avg := average
      finalC := s2.C }
  else
    { exitCode := 1
      stdoutLines := []
      stderrLines := ["OpenMP is not supported here -- sorry."]
      didInit := false
      trialsExecuted := 0
      peak := 0
      avg := 0
      finalC := fun _ => 0 }

/-! ### Lemmas about the parallel region -/

/-- After the parallel loop, a listed index holds `A i * B i` and an
unlisted index is untouched — the written value does not depend on `C`,
so the order of writes is irrelevant. -/
lemma ompParallelFor_apply (A B C0 : ℕ → ℚ) (l : List ℕ) (i : ℕ) :
    ompParallelFor A B C0 l i = if i ∈ l then A i * B i else C0 i := by
  induction l generalizing C0 with
  | nil => simp [ompParallelFor]
  | cons a l ih =>
    show ompParallelFor A B (Function.update C0 a (A a * B a)) l i = _
    rw [ih]
    by_cases hil : i ∈ l
    · simp [hil]
    · by_cases hia : i = a
      · subst hia
        simp [hil, Function.update_same]
      · simp [hil, hia, Function.update_noteq hia]

/-- The static schedule covers exactly the index range `[0, size)`,
whatever the positive thread count. -/
lemma mem_schedule {size numt : ℕ} (hnumt : 1 ≤ numt) (i : ℕ) :
    i ∈ schedule size numt ↔ i < size := by
  constructor
  · intro hi
    simp only [schedule, List.mem_flatMap, threadIndices, List.mem_filter,
      decide_eq_true_eq] at hi
    obtain ⟨t, -, -, h⟩ := hi
    exact h
  · intro hi
    have key : numt * chunkSize size numt + (size + numt - 1) % numt
        = size + numt - 1 := by
      rw [chunkSize]
      exact Nat.div_add_mod _ _
    have hmlt : (size + numt - 1) % numt < numt := Nat.mod_lt _ (by omega)
    have hcover : size ≤ numt * chunkSize size numt := by omega
    have hq1 : 0 < chunkSize size numt := by
      rcases Nat.eq_zero_or_pos (chunkSize size numt) with h0 | h1
      · rw [h0, Nat.mul_zero] at hcover
        omega
      · exact h1
    refine List.mem_flatMap.2 ⟨i / chunkSize size numt, List.mem_range.2 ?_, ?_⟩
    · exact (Nat.div_lt_iff_lt_mul hq1).2 (Nat.lt_of_lt_of_le hi hcover)
    · have hdm : i / chunkSize size numt * chunkSize size numt
          + i % chunkSize size numt = i := Nat.div_add_mod' i _
      have hm2 : i % chunkSize size numt < chunkSize size numt := Nat.mod_lt _ hq1
      refine List.mem_filter.2 ⟨List.mem_range'_1.2 ⟨?_, ?_⟩, by simpa using hi⟩
      · omega
      · omega

/-! ### Lemmas about initialization -/

/-- The init loop peeled at its last iteration. -/
lemma initArrays_succ (n : ℕ) (s : ProgState) :
    initArrays (n + 1) s =
      { initArrays n s with
        A := Function.update (initArrays n s).A n 1
        B := Function.update (initArrays n s).B n 2 } := by
  simp [initArrays, List.range_succ]

lemma initArrays_A (size : ℕ) (s : ProgState) (i : ℕ) :
    (initArrays size s).A i = if i < size then 1 else s.A i := by
  induction size with
  | zero => simp [initArrays]
  | succ n ih =>
    rw [initArrays_succ]
    by_cases hin : i = n
    · subst hin
      simp [Function.update_same]
    · simp only [Function.update_noteq hin, ih]
      by_cases hlt : i < n
      · simp [hlt, Nat.lt_succ_of_lt hlt]
      · have : ¬ i < n + 1 := by omega
        simp [hlt, this]

lemma initArrays_B (size : ℕ) (s : ProgState) (i : ℕ) :
    (initArrays size s).B i = if i < size then 2 else s.B i := by
  induction size with
  | zero => simp [initArrays]
  | succ n ih =>
    rw [initArrays_succ]
    by_cases hin : i = n
    · subst hin
      simp [Function.update_same]
    · simp only [Function.update_noteq hin, ih]
      by_cases hlt : i < n
      · simp [hlt, Nat.lt_succ_of_lt hlt]
      · have : ¬ i < n + 1 := by omega
        simp [hlt, this]

/-- The init loop writes only A and B. -/
lemma initArrays_rest (size : ℕ) (s : ProgState) :
    (initArrays size s).C = s.C ∧
      (initArrays size s).maxMegaMults = s.maxMegaMults ∧
      (initArrays size s).sum = s.sum := by
  induction size with
  | zero => exact ⟨rfl, rfl, rfl⟩
  | succ n ih => rw [initArrays_succ]; exact ih

/-! ### Lemmas about the trial loop -/

/-- The trial loop peeled at its last iteration. -/
lemma runTrials_succ (size numt n : ℕ) (clock : ℕ → ℚ × ℚ) (s : ProgState) :
    runTrials size numt (n + 1) clock s =
      trialStep size numt (clock n) (runTrials size numt n clock s) := by
  simp [runTrials, List.range_succ]

/-- No trial writes A. -/
lemma runTrials_A (size numt n : ℕ) (clock : ℕ → ℚ × ℚ) (s : ProgState) :
    (runTrials size numt n clock s).A = s.A := by
  induction n with
  | zero => rfl
  | succ n ih => rw [runTrials_succ]; exact ih

/-- No trial writes B. -/
lemma runTrials_B (size numt n : ℕ) (clock : ℕ → ℚ × ℚ) (s : ProgState) :
    (runTrials size numt n clock s).B = s.B := by
  induction n with
  | zero => rfl
  | succ n ih => rw [runTrials_succ]; exact ih

/-- After at least one trial, `C` holds the elementwise product on
`[0, size)` and its original contents elsewhere. -/
lemma runTrials_C (size numt n : ℕ) (clock : ℕ → ℚ × ℚ) (s : ProgState)
    (hnumt : 1 ≤ numt) (hn : 1 ≤ n) (i : ℕ) :
    (runTrials size numt n clock s).C i =
      if i < size then s.A i * s.B i else s.C i := by
  induction n with
  | zero => omega
  | succ n ih =>
    rw [runTrials_succ]
    show ompParallelFor (runTrials size numt n clock s).A
      (runTrials size numt n clock s).B (runTrials size numt n clock s).C
      (schedule size numt) i = _
    rw [ompParallelFor_apply, runTrials_A, runTrials_B]
    by_cases hi : i < size
    · simp [hi, (mem_schedule hnumt i).2 hi]
    · have hns : i ∉ schedule size numt := fun h => hi ((mem_schedule hnumt i).1 h)
      rcases Nat.eq_zero_or_pos n with hn0 | hn1
      · subst hn0
        simp [hi, hns, runTrials]
      · simp [hi, hns, ih hn1]

/-- The running sum after `n` trials is the initial sum plus the sum of
the `n` throughput samples. -/
lemma runTrials_sum (size numt n : ℕ) (clock : ℕ → ℚ × ℚ) (s : ProgState) :
    (runTrials size numt n clock s).sum = s.sum + (samples size n clock).sum := by
  induction n with
  | zero => simp [runTrials, samples]
  | succ n ih =>
    rw [runTrials_succ]
    show (runTrials size numt n clock s).sum + megaMultsOf size (clock n) = _
    rw [ih]
    simp [samples, List.range_succ, add_assoc]

/-- The running maximum after `n` trials is the fold of the source's
strict-greater update over the samples. -/
lemma runTrials_max (size numt n : ℕ) (clock : ℕ → ℚ × ℚ) (s : ProgState) :
    (runTrials size numt n clock s).maxMegaMults =
      (samples size n clock).foldl
        (fun m x => if x > m then x else m) s.maxMegaMults := by
  induction n with
  | zero => simp [runTrials, samples]
  | succ n ih =>
    rw [runTrials_succ]
    show (if megaMultsOf size (clock n) > (runTrials size numt n clock s).maxMegaMults
      then megaMultsOf size (clock n)
      else (runTrials size numt n clock s).maxMegaMults) = _
    rw [ih]
    simp [samples, List.range_succ]

/-! ### The running maximum as a `max`-fold -/

/-- The source's update `if (megaMults > maxMegaMults) maxMegaMults = megaMults`
is the binary maximum. -/
lemma gtStep_eq_max (m x : ℚ) : (if x > m then x else m) = max m x := by
  rcases le_or_lt x m with h | h
  · rw [if_neg (not_lt.2 h), max_eq_left h]
  · rw [if_pos h, max_eq_right h.le]

lemma foldl_gtStep_eq_max (l : List ℚ) (a : ℚ) :
    l.foldl (fun m x => if x > m then x else m) a = l.foldl max a := by
  induction l generalizing a with
  | nil => rfl
  | cons x l ih =>
    rw [List.foldl_cons, List.foldl_cons, gtStep_eq_max, ih]

lemma le_foldl_max (a : ℚ) (l : List ℚ) : a ≤ l.foldl max a := by
  induction l generalizing a with
  | nil => exact le_refl a
  | cons x l ih =>
    exact le_trans (le_max_left a x) (ih (max a x))

lemma mem_le_foldl_max (a : ℚ) {x : ℚ} {l : List ℚ} (hx : x ∈ l) :
    x ≤ l.foldl max a := by
  induction l generalizing a with
  | nil => cases hx
  | cons y l ih =>
    rcases List.mem_cons.1 hx with h | h
    · subst h
      exact le_trans (le_max_right a x) (le_foldl_max (max a x) l)
    · exact ih (max a y) h

/-! ### Projections of a successful run -/

lemma mainRun_peak (size n numt : ℕ) (clock : ℕ → ℚ × ℚ) :
    (mainRun true size n numt clock).peak =
      (runTrials size numt n clock (initArrays size initState)).maxMegaMults := rfl

lemma mainRun_avg (size n numt : ℕ) (clock : ℕ → ℚ × ℚ) :
    (mainRun true size n numt clock).avg =
      (runTrials size numt n clock (initArrays size initState)).sum / (n : ℚ) := rfl

lemma mainRun_finalC (size n numt : ℕ) (clock : ℕ → ℚ × ℚ) :
    (mainRun true size n numt clock).finalC =
      (runTrials size numt n clock (initArrays size initState)).C := rfl

/-- On a successful run the printed peak is the fold of the strict-greater
update over the samples, i.e. the `max`-fold from `0`. -/
lemma mainRun_peak_eq_foldl (size n numt : ℕ) (clock : ℕ → ℚ × ℚ) :
    (mainRun true size n numt clock).peak = (samples size n clock).foldl max 0 := by
  rw [mainRun_peak, runTrials_max, (initArrays_rest size initState).2.1,
    foldl_gtStep_eq_max]
  rfl

/-- On a successful run the printed average is the samples' sum over the
trial count. -/
lemma mainRun_avg_eq_sum (size n numt : ℕ) (clock : ℕ → ℚ × ℚ) :
    (mainRun true size n numt clock).avg = (samples size n clock).sum / (n : ℚ) := by
  rw [mainRun_avg, runTrials_sum, (initArrays_rest size initState).2.2]
  show (0 + (samples size n clock).sum) / (n : ℚ) = _
  rw [zero_add]

/-! ### Formatting lemmas -/

lemma fracDigits_length (x : ℚ) : (fracDigits x).length = 2 := rfl

lemma fmtFixed_length (w : ℕ) (x : ℚ) : w ≤ (fmtFixed w x).length := by
  rw [fmtFixed, String.length_append]
  have hpad : (String.mk (List.replicate (w - (fmtCore x).length) ' ')).length
      = w - (fmtCore x).length := by
    show (List.replicate (w - (fmtCore x).length) ' ').length = _
    exact List.length_replicate _ _
  rw [hpad]
  omega

lemma fmtFixed_decimals (w : ℕ) (x : ℚ) :
    ∃ a b : String, fmtFixed w x = a ++ "." ++ b ∧ b.length = 2 := by
  refine ⟨String.mk (List.replicate (w - (fmtCore x).length) ' ') ++
    ((if x < 0 then "-" else "") ++ toString (centi x / 100)), fracDigits x, ?_,
    fracDigits_length x⟩
  rw [fmtFixed, fmtCore]
  simp [String.append_assoc]

/-! ### The claims -/

/-- C1: for every trial (any positive trial index, any `threadCount ≥ 1`),
after the trial's parallel loop completes every valid index `i` of the
output array satisfies `C[i] = A[i] * B[i]`, and with the initialized
inputs (`A[i] = 1`, `B[i] = 2`) this value is `2` at every index. -/
theorem c1_trial_computes_products (size numt n : ℕ) (clock : ℕ → ℚ × ℚ)
    (hnumt : 1 ≤ numt) (hn : 1 ≤ n) (i : ℕ) (hi : i < size) :
    (runTrials size numt n clock (initArrays size initState)).C i =
      (runTrials size numt n clock (initArrays size initState)).A i *
        (runTrials size numt n clock (initArrays size initState)).B i ∧
    (runTrials size numt n clock (initArrays size initState)).C i = 2 := by
  have hC := runTrials_C size numt n clock (initArrays size initState) hnumt hn i
  rw [if_pos hi] at hC
  have hA := runTrials_A size numt n clock (initArrays size initState)
  have hB := runTrials_B size numt n clock (initArrays size initState)
  have hA1 : (initArrays size initState).A i = 1 := by rw [initArrays_A, if_pos hi]
  have hB2 : (initArrays size initState).B i = 2 := by rw [initArrays_B, if_pos hi]
  constructor
  · rw [hC, hA, hB]
  · rw [hC, hA1, hB2]
    norm_num

theorem c1_witness :
    (runTrials 4 2 1 (fun _ => ((0 : ℚ), (1 : ℚ))) (initArrays 4 initState)).C 0 =
      (runTrials 4 2 1 (fun _ => ((0 : ℚ), (1 : ℚ))) (initArrays 4 initState)).A 0 *
        (runTrials 4 2 1 (fun _ => ((0 : ℚ), (1 : ℚ))) (initArrays 4 initState)).B 0 ∧
    (runTrials 4 2 1 (fun _ => ((0 : ℚ), (1 : ℚ))) (initArrays 4 initState)).C 0 = 2 :=
  c1_trial_computes_products 4 2 1 (fun _ => ((0 : ℚ), (1 : ℚ)))
    (by decide) (by decide) 0 (by decide)

/-- C2: the benchmark's output array contents are identical for
`threadCount = 1` and any `threadCount = N ≥ 1`, whatever the two runs'
clocks read: the number of worker threads never changes the numeric
result in `C`. -/
theorem c2_thread_count_irrelevant (size numt n : ℕ) (clock clock1 : ℕ → ℚ × ℚ)
    (hnumt : 1 ≤ numt) (i : ℕ) :
    (mainRun true size n numt clock).finalC i =
      (mainRun true size n 1 clock1).finalC i := by
  rw [mainRun_finalC, mainRun_finalC]
  rcases Nat.eq_zero_or_pos n with h0 | h1
  · subst h0
    rfl
  · rw [runTrials_C size numt n clock _ hnumt h1 i,
      runTrials_C size 1 n clock1 _ le_rfl h1 i]

theorem c2_witness :
    (mainRun true 4 2 3 (fun _ => ((0 : ℚ), (2 : ℚ)))).finalC 1 =
      (mainRun true 4 2 1 (fun _ => ((0 : ℚ), (1 : ℚ)))).finalC 1 :=
  c2_thread_count_irrelevant 4 3 2 (fun _ => ((0 : ℚ), (2 : ℚ)))
    (fun _ => ((0 : ℚ), (1 : ℚ))) (by decide) 1

/-- C3: for every run with `trialCount ≥ 1`, the reported peak throughput
is at least the reported average throughput. -/
theorem c3_peak_ge_average (size n numt : ℕ) (clock : ℕ → ℚ × ℚ) (hn : 1 ≤ n) :
    (mainRun true size n numt clock).avg ≤ (mainRun true size n numt clock).peak := by
  rw [mainRun_avg_eq_sum, mainRun_peak_eq_foldl]
  have hlen : (samples size n clock).length = n := by simp [samples]
  have hb : ∀ x ∈ samples size n clock, x ≤ (samples size n clock).foldl max 0 :=
    fun x hx => mem_le_foldl_max 0 hx
  have hsum := List.sum_le_card_nsmul (samples size n clock) _ hb
  rw [hlen, nsmul_eq_mul] at hsum
  have hnpos : (0 : ℚ) < n := by exact_mod_cast hn
  rw [div_le_iff₀ hnpos]
  calc (samples size n clock).sum
      ≤ (n : ℚ) * (samples size n clock).foldl max 0 := hsum
    _ = (samples size n clock).foldl max 0 * n := mul_comm _ _

theorem c3_witness :
    (mainRun true 4 2 1 (fun _ => ((0 : ℚ), (1 : ℚ)))).avg ≤
      (mainRun true 4 2 1 (fun _ => ((0 : ℚ), (1 : ℚ)))).peak :=
  c3_peak_ge_average 4 2 1 (fun _ => ((0 : ℚ), (1 : ℚ))) (by decide)

/-- C4: a run configured with `trialCount = 1` (and a monotone clock, so
the single trial's elapsed time is nonnegative) reports a peak throughput
equal to the average throughput. -/
theorem c4_single_trial_peak_eq_avg (size numt : ℕ) (clock : ℕ → ℚ × ℚ)
    (hmono : (clock 0).1 ≤ (clock 0).2) :
    (mainRun true size 1 numt clock).peak = (mainRun true size 1 numt clock).avg := by
  rw [mainRun_peak_eq_foldl, mainRun_avg_eq_sum]
  have hsamp : samples size 1 clock = [megaMultsOf size (clock 0)] := rfl
  rw [hsamp]
  have hnn : 0 ≤ megaMultsOf size (clock 0) := by
    unfold megaMultsOf
    apply div_nonneg
    · apply div_nonneg
      · exact_mod_cast Nat.zero_le size
      · exact sub_nonneg.2 hmono
    · norm_num
  simp [max_eq_right hnn]

theorem c4_witness :
    (mainRun true 4 1 3 (fun _ => ((0 : ℚ), (1 : ℚ)))).peak =
      (mainRun true 4 1 3 (fun _ => ((0 : ℚ), (1 : ℚ)))).avg :=
  c4_single_trial_peak_eq_avg 4 3 (fun _ => ((0 : ℚ), (1 : ℚ))) (by decide)

/-- C5: when the parallel-execution capability is unavailable the process
writes the diagnostic to the error stream and exits with status 1 without
initializing the arrays or executing any trial (and prints nothing on
stdout); when it is available the process exits with status 0. -/
theorem c5_openmp_gate (size n numt : ℕ) (clock : ℕ → ℚ × ℚ) :
    (mainRun false size n numt clock).exitCode = 1 ∧
    (mainRun false size n numt clock).stderrLines =
      ["OpenMP is not supported here -- sorry."] ∧
    (mainRun false size n numt clock).stdoutLines = [] ∧
    (mainRun false size n numt clock).didInit = false ∧
    (mainRun false size n numt clock).trialsExecuted = 0 ∧
    (mainRun true size n numt clock).exitCode = 0 :=
  ⟨rfl, rfl, rfl, rfl, rfl, rfl⟩

/-- C6: each trial's throughput sample is exactly
`size / (time1 - time0) / 1000000`, and the reported average is the sum of
all the samples divided by the trial count; no hypothesis restricts the
elapsed time, so a zero or negative `time1 - time0` is not special-cased
and its sample propagates into the reported average. -/
theorem c6_sample_formula_and_average (size n numt : ℕ) (clock : ℕ → ℚ × ℚ) :
    (∀ t, megaMultsOf size (clock t) =
      (size : ℚ) / ((clock t).2 - (clock t).1) / 1000000) ∧
    (mainRun true size n numt clock).avg =
      ((List.range n).map
        (fun t => (size : ℚ) / ((clock t).2 - (clock t).1) / 1000000)).sum
        / (n : ℚ) := by
  refine ⟨fun t => rfl, ?_⟩
  rw [mainRun_avg_eq_sum]
  rfl

/-- C7: for any configured `elementCount > 0`, after initialization and
before any trial, every element of `A` equals `1` and every element of `B`
equals `2`. -/
theorem c7_init_values (size : ℕ) (hpos : 0 < size) (i : ℕ) (hi : i < size) :
    (initArrays size initState).A i = 1 ∧ (initArrays size initState).B i = 2 :=
  ⟨by rw [initArrays_A, if_pos hi], by rw [initArrays_B, if_pos hi]⟩

theorem c7_witness :
    (initArrays 3 initState).A 1 = 1 ∧ (initArrays 3 initState).B 1 = 2 :=
  c7_init_values 3 (by decide) 1 (by decide)

/-- C8: a trial never writes `A` or `B`: after any trial step the two
input arrays are exactly what they were before it (the step modifies only
`C`, `sum` and `maxMegaMults`). -/
theorem c8_trial_preserves_inputs (size numt : ℕ) (tp : ℚ × ℚ) (s : ProgState) :
    (trialStep size numt tp s).A = s.A ∧ (trialStep size numt tp s).B = s.B :=
  ⟨rfl, rfl⟩

/-- C9: on a successful run, stdout is exactly two lines in fixed order —
`Peak Performance = <value> MegaMults/Sec` then
`Average Performance = <value> MegaMults/Sec` — where each value is
rendered right-justified in a field of width at least 8 with exactly two
digits after the decimal point. -/
theorem c9_output_format (size n numt : ℕ) (clock : ℕ → ℚ × ℚ) :
    (mainRun true size n numt clock).stdoutLines =
      ["Peak Performance = " ++ fmtFixed 8 (mainRun true size n numt clock).peak ++
         " MegaMults/Sec",
       "Average Performance = " ++ fmtFixed 8 (mainRun true size n numt clock).avg ++
         " MegaMults/Sec"] ∧
    ∀ x : ℚ, 8 ≤ (fmtFixed 8 x).length ∧
      ∃ a b : String, fmtFixed 8 x = a ++ "." ++ b ∧ b.length = 2 :=
  ⟨rfl, fun x => ⟨fmtFixed_length 8 x, fmtFixed_decimals 8 x⟩⟩

/-- C10: the reported peak is the `max`-fold of the samples started from
the initial value `0` — the maximum of `0` and all trial samples — and is
therefore never negative, even if every sample is zero or negative. -/
theorem c10_peak_nonneg (size n numt : ℕ) (clock : ℕ → ℚ × ℚ) :
    (mainRun true size n numt clock).peak = (samples size n clock).foldl max 0 ∧
    0 ≤ (mainRun true size n numt clock).peak := by
  refine ⟨mainRun_peak_eq_foldl size n numt clock, ?_⟩
  rw [mainRun_peak_eq_foldl]
  exact le_foldl_max 0 _
